import Mathlib

/-!
Shallow embedding of `src/VecoMiner.py` (vecocoin/vecominer).

Conventions of the embedding:
* Python floats (elapsed wall-clock times, hash rates) are modelled as `ℚ`.
* Python `int(x)` truncates toward zero; this is `pyTrunc`.
* Python float division raises `ZeroDivisionError` on a zero divisor, so a
  computation that can hit `30 / 0.0` is modelled in `Option`: `none` is the
  raised exception, `some v` is a normal return of `v`.
* The outcome of one HTTP round trip (success with a parsed JSON body, or a
  `requests.exceptions.RequestException`) is an explicit `TransportResult`
  input; `rpc_call` is a total function of it, mirroring the
  `try/except RequestException: return {}` in the source.
* A worker thread's interaction with the shared `stop_event` and the clock is
  captured by a per-iteration environment (`IterEnv`): the value `is_set`
  returns at the top of the loop, the elapsed time of the call, the transport
  outcome, and the value `is_set` returns right after the call.
-/

/-- JSON values, the shape of parsed RPC responses (`response.json()`). -/
inductive Json where
  | null
  | bool (b : Bool)
  | num (q : ℚ)
  | str (s : String)
  | arr (elems : List Json)
  | obj (fields : List (String × Json))

/-- Outcome of one HTTP POST in `session.post(...)` followed by
`response.json()`: either a parsed body, or one of the
`requests.exceptions.RequestException` transport failures. -/
inductive TransportResult where
  | ok (body : Json)
  | connectionError (msg : String)
  | timeoutError (msg : String)
  | requestError (msg : String)

/-- True on the transport-failure outcomes, false on a parsed response. -/
def TransportResult.isError : TransportResult → Bool
  | .ok _ => false
  | .connectionError _ => true
  | .timeoutError _ => true
  | .requestError _ => true

/-- Embedding of `rpc_call` (src/VecoMiner.py lines 43-53): on success the
parsed JSON body is returned; every `RequestException` is caught, logged and
converted to the empty dict `{}` — the function never propagates the
exception to its caller. -/
def rpc_call (_method : String) (_params : List Json)
    (transport : TransportResult) : Json :=
  match transport with
  | .ok body => body
  | .connectionError _ => Json.obj []
  | .timeoutError _ => Json.obj []
  | .requestError _ => Json.obj []

/-- Python `int(x)` on a float: truncation toward zero. -/
def pyTrunc (q : ℚ) : ℤ := if 0 ≤ q then ⌊q⌋ else ⌈q⌉

/-- Embedding of the tail of `calibrate_iterations`
(src/VecoMiner.py lines 93-104), as a function of the gathered
`calibration_times` list.  `none` models the `ZeroDivisionError` that Python
raises at `30 / avg_time_per_thread` when the average elapsed time is `0.0`;
there is no guard for it in the source.  On the empty list the function
returns the fixed fallback `5000`; otherwise it computes
`int(2000 * (30 / avg))` and clamps it into `[200, 20000]`. -/
def calibrate_iterations (calibration_times : List ℚ) : Option ℤ :=
  if calibration_times = [] then some 5000
  else
    let avg_time_per_thread :=
      calibration_times.sum / (calibration_times.length : ℚ)
    if avg_time_per_thread = 0 then none
    else
      let estimated_iterations := pyTrunc (2000 * (30 / avg_time_per_thread))
      some (max 200 (min estimated_iterations 20000))

/-- Environment of one calibration probe: the transport outcome of its RPC
call and the elapsed wall-clock time it measures around that call. -/
structure ProbeEnv where
  transport : TransportResult
  elapsed : ℚ

/-- Embedding of `calibrate_single_thread` (src/VecoMiner.py lines 68-79):
after the barrier, the probe times one `rpc_call` and appends the elapsed
time to the shared `calibration_times` list.  Because `rpc_call` is total
(it converts transport errors to `{}` instead of raising), the append
happens on every probe, failed RPC or not. -/
def calibrate_single_thread (coinbase_address : String) (env : ProbeEnv)
    (calibration_times : List ℚ) : List ℚ :=
  let _result := rpc_call "generatetoaddress"
    [Json.num 1, Json.str coinbase_address, Json.num 2000] env.transport
  calibration_times ++ [env.elapsed]

/-- The `calibration_times` list after all probes have run and been joined
(src/VecoMiner.py lines 81-90).  The probes append concurrently under
`time_lock`; we model one serialisation (probe order) — every claim below
depends only on the multiset of samples, which is the same in all
serialisations. -/
def run_calibration_probes (coinbase_address : String)
    (probes : List ProbeEnv) : List ℚ :=
  probes.foldl (fun times env => calibrate_single_thread coinbase_address env times) []

/-- The whole of `calibrate_iterations` (src/VecoMiner.py lines 57-104): run
one probe per worker slot, then derive the workload size from the gathered
samples. -/
def calibrate_full (coinbase_address : String) (probes : List ProbeEnv) :
    Option ℤ :=
  calibrate_iterations (run_calibration_probes coinbase_address probes)

/-- Hash-rate expression of one worker iteration
(src/VecoMiner.py line 122): `iterations / elapsed_time if elapsed_time > 0
else 0`. -/
def thread_hash_rate (iterations : ℤ) (elapsed : ℚ) : ℚ :=
  if 0 < elapsed then (iterations : ℚ) / elapsed else 0

/-- Environment of one worker-loop iteration: what `stop_event.is_set()`
returns at the top of the loop, the transport outcome of the RPC call, the
elapsed time measured around it, and what `stop_event.is_set()` returns
right after the call. -/
structure IterEnv where
  stopBefore : Bool
  transport : TransportResult
  elapsed : ℚ
  stopAfter : Bool

/-- Embedding of the `mine_blocks` worker loop (src/VecoMiner.py lines
108-133), run against a finite schedule of iteration environments; the
result is the sequence of hash-rate values the worker publishes into
`thread_hash_rates` (one `thread_hash_rates[thread_id] = rate` per element).
The loop exits when `is_set` is observed true at the top of an iteration,
or — without publishing — when it is observed true right after the call. -/
def mine_blocks (iterations : ℤ) (coinbase_address : String) :
    List IterEnv → List ℚ
  | [] => []
  | e :: rest =>
    if e.stopBefore then []
    else
      let _result := rpc_call "generatetoaddress"
        [Json.num 1, Json.str coinbase_address, Json.num (iterations : ℚ)]
        e.transport
      if e.stopAfter then []
      else thread_hash_rate iterations e.elapsed :: mine_blocks iterations coinbase_address rest

/-- Lookup in the `thread_hash_rates` dict, modelled as an association list
from thread id to most recent rate. -/
def getRate : List (ℕ × ℚ) → ℕ → Option ℚ
  | [], _ => none
  | p :: rest, w => if p.1 = w then some p.2 else getRate rest w

/-- The dict assignment `thread_hash_rates[thread_id] = rate`: overwrite the
entry for `w` if present, else append a fresh entry.  Nothing is ever
removed. -/
def setRate : List (ℕ × ℚ) → ℕ → ℚ → List (ℕ × ℚ)
  | [], w, v => [(w, v)]
  | p :: rest, w, v =>
    if p.1 = w then (w, v) :: rest else p :: setRate rest w v

/-- The operations the program performs on `thread_hash_rates`: a worker
publishing its own rate (src/VecoMiner.py line 126, under `hash_rate_lock`)
and the aggregator reading the whole dict to sum it
(src/VecoMiner.py line 146).  No operation deletes an entry. -/
inductive RegOp where
  | publish (thread_id : ℕ) (rate : ℚ)
  | readTotal

/-- Effect of one registry operation on the registry contents. -/
def applyOp (r : List (ℕ × ℚ)) : RegOp → List (ℕ × ℚ)
  | .publish w v => setRate r w v
  | .readTotal => r

/-- Effect of a sequence of registry operations. -/
def applyOps (r : List (ℕ × ℚ)) (ops : List RegOp) : List (ℕ × ℚ) :=
  ops.foldl applyOp r

/-- The sum the aggregator prints: `sum(thread_hash_rates.values())`
(src/VecoMiner.py line 146). -/
def total_hash_rate (r : List (ℕ × ℚ)) : ℚ :=
  (r.map Prod.snd).sum

/-- The `threading.Event` flag, modelled by its boolean state;
`stop_event.set()` forces it to true. -/
def Event.set (_stop_event : Bool) : Bool := true

/-- Reading the flag: `stop_event.is_set()`. -/
def Event.isSet (stop_event : Bool) : Bool := stop_event

/-- Embedding of `signal_handler` (src/VecoMiner.py lines 153-156): its
whole effect on shared state is `stop_event.set()`. -/
def signal_handler (stop_event : Bool) : Bool := Event.set stop_event

/-- The operations the program performs on `stop_event`: `set()` (from
`signal_handler` and the `KeyboardInterrupt` path in main) and `is_set()`
reads.  `clear()` is never called. -/
inductive EventOp where
  | setFlag
  | readFlag

/-- Effect of one `stop_event` operation on the flag state. -/
def applyEventOp (flag : Bool) : EventOp → Bool
  | .setFlag => Event.set flag
  | .readFlag => flag

/-! Helper lemmas shared across the claim theorems. -/

/-- Folding the probes over `calibrate_single_thread` appends one elapsed
sample per probe, in order. -/
lemma foldl_calibrate_eq_append (coinbase_address : String)
    (probes : List ProbeEnv) (acc : List ℚ) :
    probes.foldl (fun times env => calibrate_single_thread coinbase_address env times) acc
      = acc ++ probes.map ProbeEnv.elapsed := by
  induction probes generalizing acc with
  | nil => simp
  | cons p rest ih =>
      rw [List.foldl_cons, ih]
      simp [calibrate_single_thread]

/-- The gathered calibration sample list is exactly the probes' elapsed
times: one sample per probe, failed RPC or not. -/
lemma run_calibration_probes_eq_map (coinbase_address : String)
    (probes : List ProbeEnv) :
    run_calibration_probes coinbase_address probes = probes.map ProbeEnv.elapsed := by
  simp [run_calibration_probes, foldl_calibrate_eq_append]

/-- Unfolding of one worker-loop iteration. -/
lemma mine_blocks_cons (iterations : ℤ) (coinbase_address : String)
    (e : IterEnv) (rest : List IterEnv) :
    mine_blocks iterations coinbase_address (e :: rest)
      = if e.stopBefore then []
        else if e.stopAfter then []
        else thread_hash_rate iterations e.elapsed
          :: mine_blocks iterations coinbase_address rest := rfl

/-- On a schedule where the stop flag is never observed set, the worker
publishes exactly one hash-rate value per iteration, computed from that
iteration's elapsed time. -/
lemma mine_blocks_no_stop (iterations : ℤ) (coinbase_address : String)
    (envs : List IterEnv)
    (h : ∀ e ∈ envs, e.stopBefore = false ∧ e.stopAfter = false) :
    mine_blocks iterations coinbase_address envs
      = envs.map (fun e => thread_hash_rate iterations e.elapsed) := by
  induction envs with
  | nil => rfl
  | cons e rest ih =>
      have he := h e (List.mem_cons_self e rest)
      rw [mine_blocks_cons, if_neg (by simp [he.1]), if_neg (by simp [he.2]),
        List.map_cons, ih (fun x hx => h x (List.mem_cons_of_mem e hx))]

/-- Overwriting the entry for `w` makes lookup at `w` return the new rate. -/
lemma getRate_setRate_self (r : List (ℕ × ℚ)) (w : ℕ) (v : ℚ) :
    getRate (setRate r w v) w = some v := by
  induction r with
  | nil => simp [setRate, getRate]
  | cons p rest ih =>
      by_cases hp : p.1 = w
      · simp [setRate, hp, getRate]
      · simp [setRate, hp, getRate, ih]

/-- Overwriting the entry for `w` leaves lookup at any other key unchanged. -/
lemma getRate_setRate_other (r : List (ℕ × ℚ)) (w w' : ℕ) (v : ℚ)
    (hne : w' ≠ w) :
    getRate (setRate r w v) w' = getRate r w' := by
  induction r with
  | nil => simp [setRate, getRate, hne.symm]
  | cons p rest ih =>
      by_cases hp : p.1 = w
      · have hp' : ¬p.1 = w' := by rw [hp]; exact hne.symm
        simp [setRate, hp, getRate, hne.symm, hp']
      · by_cases hp' : p.1 = w'
        · simp [setRate, hp, getRate, hp', hne, hne.symm]
        · simp [setRate, hp, getRate, hp', ih]

/-- A single registry operation never removes an existing entry. -/
lemma applyOp_preserves_isSome (r : List (ℕ × ℚ)) (op : RegOp) (w : ℕ)
    (h : (getRate r w).isSome = true) :
    (getRate (applyOp r op) w).isSome = true := by
  cases op with
  | publish w2 v =>
      by_cases hw : w = w2
      · subst hw
        simp [applyOp, getRate_setRate_self]
      · simpa [applyOp, getRate_setRate_other r w2 w v hw] using h
  | readTotal => simpa [applyOp] using h

/-- On a non-empty sample list with nonzero mean, the computed workload size
lands in the clamp range. -/
lemma calibrate_iterations_mem_range (times : List ℚ) (h1 : times ≠ [])
    (h2 : times.sum / (times.length : ℚ) ≠ 0) :
    ∃ v, calibrate_iterations times = some v ∧ 200 ≤ v ∧ v ≤ 20000 := by
  refine ⟨max 200 (min (pyTrunc (2000 * (30 / (times.sum / (times.length : ℚ))))) 20000),
    ?_, le_max_left _ _, max_le (by norm_num) (min_le_right _ _)⟩
  simp only [calibrate_iterations, if_neg h1, if_neg h2]

/-- C1, corrected part: for every worker count W ≥ 1 whose probes measure a
nonzero mean latency, the calibrator returns a workload size in the closed
range [200, 20000] without raising.  (The claim's further assertion that this
also holds when the mean latency is 0 fails: see the counterexample.) -/
theorem calibrate_in_range (coinbase_address : String) (probes : List ProbeEnv)
    (hW : 1 ≤ probes.length)
    (havg : (probes.map ProbeEnv.elapsed).sum / (probes.length : ℚ) ≠ 0) :
    ∃ v, calibrate_full coinbase_address probes = some v ∧ 200 ≤ v ∧ v ≤ 20000 := by
  have hne : probes ≠ [] := List.length_pos.mp (by omega)
  have hmapne : probes.map ProbeEnv.elapsed ≠ [] := by simpa using hne
  have h2 : (probes.map ProbeEnv.elapsed).sum
      / ((probes.map ProbeEnv.elapsed).length : ℚ) ≠ 0 := by
    rw [List.length_map]; exact havg
  simpa [calibrate_full, run_calibration_probes_eq_map] using
    calibrate_iterations_mem_range (probes.map ProbeEnv.elapsed) hmapne h2

/-- Witness for C1's amended theorem at a concrete one-worker run. -/
theorem calibrate_in_range_witness :
    ∃ v, calibrate_full "addr" [⟨TransportResult.ok Json.null, 5⟩] = some v ∧
      200 ≤ v ∧ v ≤ 20000 :=
  calibrate_in_range "addr" [⟨TransportResult.ok Json.null, 5⟩]
    (by norm_num) (by norm_num)

/-- C1, counterexample: a worker count of 1 whose probe measures elapsed time
exactly 0 makes the average latency 0, and `30 / avg` raises
`ZeroDivisionError` (modelled as `none`): the calibrator does not return any
value in [200, 20000], it raises — refuting the claim's "never raises,
including the pathological case where the average latency is 0". -/
theorem calibrate_raises_on_zero_latency :
    calibrate_full "addr" [⟨TransportResult.ok Json.null, 0⟩] = none := by
  norm_num [calibrate_full, run_calibration_probes_eq_map, calibrate_iterations]

/-- C2, corrected part: transport errors do not steer calibration into the
5000 fallback.  Even when every probe's RPC call fails, each probe still
appends the elapsed time it measured around the failed call, so the
calibrator computes the clamped estimate from those samples; the fallback
branch is tied to an empty sample list, not to RPC failure. -/
theorem calibrate_ignores_transport_errors (coinbase_address : String)
    (probes : List ProbeEnv)
    (hfail : ∀ p ∈ probes, p.transport.isError = true) :
    (run_calibration_probes coinbase_address probes).length = probes.length ∧
    calibrate_full coinbase_address probes
      = calibrate_iterations (probes.map ProbeEnv.elapsed) := by
  constructor
  · rw [run_calibration_probes_eq_map]
    exact List.length_map _ _
  · rw [calibrate_full, run_calibration_probes_eq_map]

/-- Witness for C2's amended theorem at a concrete all-failed run. -/
theorem calibrate_ignores_transport_errors_witness :
    (run_calibration_probes "addr" [⟨TransportResult.timeoutError "t", 3⟩]).length = 1 ∧
    calibrate_full "addr" [⟨TransportResult.timeoutError "t", 3⟩]
      = calibrate_iterations [(3 : ℚ)] := by
  have h := calibrate_ignores_transport_errors "addr"
    [⟨TransportResult.timeoutError "t", 3⟩]
    (by intro p hp; rw [List.mem_singleton] at hp; subst hp; rfl)
  simpa using h

/-- C2, counterexample: a single calibration probe whose RPC call suffers a
transport error and whose failed round trip takes 0.01 s.  The claim says the
calibrator returns the fallback 5000; the code instead records the elapsed
time of the failed call and returns the clamped estimate 20000. -/
theorem calibrate_all_probes_fail_not_5000 :
    calibrate_full "addr" [⟨TransportResult.connectionError "refused", 1/100⟩]
      = some 20000 ∧ (20000 : ℤ) ≠ 5000 := by
  constructor
  · norm_num [calibrate_full, run_calibration_probes_eq_map,
      calibrate_iterations, pyTrunc]
  · norm_num

/-- C4 (confirmed): on a non-empty sample list with positive mean `avg`, the
calibrator returns exactly `max 200 (min (floor (2000 * (30 / avg))) 20000)`
— Python's `int` truncation coincides with `floor` on this positive value.
The witness instantiates the all-probes-take-10s scenario, where the result
is 6000. -/
theorem calibrate_scaling_formula (times : List ℚ) (h1 : times ≠ [])
    (h2 : 0 < times.sum / (times.length : ℚ)) :
    calibrate_iterations times
      = some (max 200
          (min ⌊(2000 : ℚ) * (30 / (times.sum / (times.length : ℚ)))⌋ 20000)) := by
  have hne : times.sum / (times.length : ℚ) ≠ 0 := ne_of_gt h2
  have hq : (0 : ℚ) ≤ 2000 * (30 / (times.sum / (times.length : ℚ))) :=
    mul_nonneg (by norm_num) (div_nonneg (by norm_num) h2.le)
  simp only [calibrate_iterations, if_neg h1, if_neg hne, pyTrunc, if_pos hq]

/-- Witness for C4: four probes of exactly 10 s each give workload 6000. -/
theorem calibrate_scaling_formula_witness :
    calibrate_iterations [10, 10, 10, 10] = some 6000 := by
  have h := calibrate_scaling_formula [10, 10, 10, 10]
    (by simp) (by norm_num)
  rw [h]
  norm_num

/-- C10 (confirmed): every probe that runs to completion appends exactly one
elapsed-time sample, even when its RPC call fails (the transport error is
converted to `{}` inside `rpc_call` before timing completes), so the sample
list has exactly one entry per probe; the empty-sample fallback branch is
taken exactly when the probe list is empty (W = 0), where it yields 5000. -/
theorem calibration_samples_one_per_probe (coinbase_address : String)
    (probes : List ProbeEnv) :
    (run_calibration_probes coinbase_address probes).length = probes.length ∧
    (run_calibration_probes coinbase_address probes).isEmpty = probes.isEmpty ∧
    calibrate_full coinbase_address [] = some 5000 := by
  refine ⟨?_, ?_, rfl⟩
  · rw [run_calibration_probes_eq_map]
    exact List.length_map _ _
  · rw [run_calibration_probes_eq_map]
    cases probes <;> rfl

/-- C8 (confirmed): while the stop flag stays unset, each worker iteration
publishes `iterations / elapsed` when `elapsed > 0` and `0` otherwise
(in particular when `elapsed = 0`); the guarded form never divides by zero. -/
theorem worker_throughput_formula (iterations : ℤ) (coinbase_address : String)
    (envs : List IterEnv)
    (h : ∀ e ∈ envs, e.stopBefore = false ∧ e.stopAfter = false) :
    mine_blocks iterations coinbase_address envs
      = envs.map (fun e =>
          if 0 < e.elapsed then (iterations : ℚ) / e.elapsed else 0) := by
  simpa [thread_hash_rate] using
    mine_blocks_no_stop iterations coinbase_address envs h

/-- Witness for C8: a 2 s iteration publishes 3000 at workload 6000 and a
0 s iteration publishes 0. -/
theorem worker_throughput_formula_witness :
    mine_blocks 6000 "addr"
      [⟨false, TransportResult.ok Json.null, 2, false⟩,
       ⟨false, TransportResult.connectionError "refused", 0, false⟩]
      = [3000, 0] := by
  have h := worker_throughput_formula 6000 "addr"
    [⟨false, TransportResult.ok Json.null, 2, false⟩,
     ⟨false, TransportResult.connectionError "refused", 0, false⟩]
    (by intro e he
        rcases List.mem_cons.mp he with h1 | h1
        · subst h1; exact ⟨rfl, rfl⟩
        · rw [List.mem_singleton] at h1; subst h1; exact ⟨rfl, rfl⟩)
  rw [h]
  norm_num

/-- C5 (confirmed): if a worker reaches an iteration (no stop observed
earlier) and observes the stop flag set right after its RPC call returns, it
exits the loop publishing nothing for that iteration, and no publication of
its follows: the publication sequence is exactly the one produced by the
earlier iterations. -/
theorem worker_no_publication_after_signal (iterations : ℤ)
    (coinbase_address : String) (pre : List IterEnv) (e : IterEnv)
    (post : List IterEnv)
    (hpre : ∀ p ∈ pre, p.stopBefore = false ∧ p.stopAfter = false)
    (hA : e.stopAfter = true) :
    mine_blocks iterations coinbase_address (pre ++ e :: post)
      = pre.map (fun p => thread_hash_rate iterations p.elapsed) := by
  induction pre with
  | nil =>
      simp only [List.nil_append, List.map_nil]
      rw [mine_blocks_cons]
      cases hb : e.stopBefore
      · simp [hA]
      · simp
  | cons p rest ih =>
      have hp := hpre p (List.mem_cons_self p rest)
      rw [List.cons_append, mine_blocks_cons, if_neg (by simp [hp.1]),
        if_neg (by simp [hp.2]), List.map_cons,
        ih (fun x hx => hpre x (List.mem_cons_of_mem p hx))]

/-- Witness for C5: one clean iteration, then a stop observed right after
the second call — only the first iteration's value is ever published. -/
theorem worker_no_publication_after_signal_witness :
    mine_blocks 5000 "addr"
      ([⟨false, TransportResult.ok Json.null, 1, false⟩] ++
        ⟨false, TransportResult.connectionError "refused", 1, true⟩ ::
        [⟨false, TransportResult.ok Json.null, 1, false⟩])
      = [5000] := by
  have h := worker_no_publication_after_signal 5000 "addr"
    [⟨false, TransportResult.ok Json.null, 1, false⟩]
    ⟨false, TransportResult.connectionError "refused", 1, true⟩
    [⟨false, TransportResult.ok Json.null, 1, false⟩]
    (by intro p hp; rw [List.mem_singleton] at hp; subst hp; exact ⟨rfl, rfl⟩)
    rfl
  rw [h]
  norm_num [thread_hash_rate]

/-- C3, counterexample: a worker iteration whose RPC call suffers a
transport error and takes 2 s at workload 5000.  The claim says the run
publishes only its last successfully measured value (skipping on error) or
0; the code instead publishes the fresh value 5000 / 2 = 2500, computed from
the failed call's elapsed time, although no call ever succeeded. -/
theorem worker_error_cycle_publishes_fresh_value :
    mine_blocks 5000 "addr"
        [⟨false, TransportResult.connectionError "refused", 2, false⟩]
      = [2500] ∧
    ¬(mine_blocks 5000 "addr"
        [⟨false, TransportResult.connectionError "refused", 2, false⟩] = [] ∨
      mine_blocks 5000 "addr"
        [⟨false, TransportResult.connectionError "refused", 2, false⟩] = [0]) := by
  have h : mine_blocks 5000 "addr"
      [⟨false, TransportResult.connectionError "refused", 2, false⟩] = [2500] := by
    rw [mine_blocks_cons]
    norm_num [thread_hash_rate, mine_blocks]
  refine ⟨h, ?_⟩
  rw [h]
  norm_num

/-- C3, corrected part: on a run in which every RPC call returns a
transport-error result and the stop flag stays unset, the worker loop is a
total function (it never crashes) and publishes, on every iteration, the
value `iterations / elapsed` of that iteration (0 when `elapsed` is 0) —
never a negative value.  It does not skip publication on error and does not
hold its last value. -/
theorem worker_error_run_elapsed_based (iterations : ℤ)
    (coinbase_address : String) (envs : List IterEnv)
    (hiter : 0 ≤ iterations)
    (h : ∀ e ∈ envs, e.stopBefore = false ∧ e.stopAfter = false ∧
      e.transport.isError = true ∧ 0 ≤ e.elapsed) :
    mine_blocks iterations coinbase_address envs
      = envs.map (fun e => thread_hash_rate iterations e.elapsed) ∧
    ∀ v ∈ mine_blocks iterations coinbase_address envs, 0 ≤ v := by
  have hmap := mine_blocks_no_stop iterations coinbase_address envs
    (fun e he => ⟨(h e he).1, (h e he).2.1⟩)
  refine ⟨hmap, ?_⟩
  rw [hmap]
  intro v hv
  rw [List.mem_map] at hv
  obtain ⟨e, _, rfl⟩ := hv
  unfold thread_hash_rate
  by_cases hel : 0 < e.elapsed
  · rw [if_pos hel]
    exact div_nonneg (by exact_mod_cast hiter) hel.le
  · rw [if_neg hel]

/-- Witness for C3's amended theorem at a concrete all-error run. -/
theorem worker_error_run_elapsed_based_witness :
    mine_blocks 5000 "addr"
        [⟨false, TransportResult.requestError "bad", 4, false⟩]
      = ([⟨false, TransportResult.requestError "bad", 4, false⟩] : List IterEnv).map
          (fun e => thread_hash_rate 5000 e.elapsed) ∧
    ∀ v ∈ mine_blocks 5000 "addr"
        [⟨false, TransportResult.requestError "bad", 4, false⟩], 0 ≤ v :=
  worker_error_run_elapsed_based 5000 "addr"
    [⟨false, TransportResult.requestError "bad", 4, false⟩]
    (by norm_num)
    (by intro e he; rw [List.mem_singleton] at he; subst he
        exact ⟨rfl, rfl, rfl, by norm_num⟩)

/-- C6 (confirmed): `signal_handler` only sets the stop flag; setting it a
second time is a no-op that leaves it true, setting never fails (it is a
total function), and neither of the program's flag operations (`set()`,
`is_set()`) ever brings a true flag back to false. -/
theorem signal_set_idempotent_monotone (stop_event : Bool) :
    signal_handler (signal_handler stop_event) = signal_handler stop_event ∧
    signal_handler stop_event = true ∧
    (∀ op : EventOp, applyEventOp true op = true) := by
  refine ⟨rfl, rfl, ?_⟩
  intro op
  cases op <;> rfl

/-- C7 (confirmed): for every method, parameter list and transport failure
(connection refused, timeout, request exception), `rpc_call` returns the
empty dict rather than propagating the exception. -/
theorem rpc_call_error_returns_empty (method : String) (params : List Json)
    (msg : String) :
    rpc_call method params (TransportResult.connectionError msg) = Json.obj [] ∧
    rpc_call method params (TransportResult.timeoutError msg) = Json.obj [] ∧
    rpc_call method params (TransportResult.requestError msg) = Json.obj [] :=
  ⟨rfl, rfl, rfl⟩

/-- C9 (confirmed): along any sequence of registry operations, (a) an entry
published for a worker identifier is never changed by operations of other
workers or by aggregator reads — it survives unchanged as long as its owner
does not publish again — and (b) once an entry exists for a key, no
operation ever deletes it. -/
theorem registry_entries_persist :
    (∀ (ops : List RegOp) (r : List (ℕ × ℚ)) (w : ℕ) (x : ℚ),
        getRate r w = some x → (∀ v : ℚ, RegOp.publish w v ∉ ops) →
        getRate (applyOps r ops) w = some x) ∧
    (∀ (ops : List RegOp) (r : List (ℕ × ℚ)) (w : ℕ),
        (getRate r w).isSome = true →
        (getRate (applyOps r ops) w).isSome = true) := by
  constructor
  · intro ops
    induction ops with
    | nil =>
        intro r w x hx _
        simpa [applyOps] using hx
    | cons op rest ih =>
        intro r w x hx hno
        have hstep : getRate (applyOp r op) w = some x := by
          cases op with
          | publish w2 v =>
              have hw : w2 ≠ w := by
                intro hEq
                exact hno v (by rw [hEq]; exact List.mem_cons_self _ _)
              simpa [applyOp] using
                (getRate_setRate_other r w2 w v hw.symm).trans hx
          | readTotal => simpa [applyOp] using hx
        have hno2 : ∀ v : ℚ, RegOp.publish w v ∉ rest := by
          intro v hv
          exact hno v (List.mem_cons_of_mem _ hv)
        simpa [applyOps, List.foldl_cons] using ih (applyOp r op) w x hstep hno2
  · intro ops
    induction ops with
    | nil =>
        intro r w h
        simpa [applyOps] using h
    | cons op rest ih =>
        intro r w h
        simpa [applyOps, List.foldl_cons] using
          ih (applyOp r op) w (applyOp_preserves_isSome r op w h)

/-- Witness for C9: worker 0's published entry survives a publication by
worker 1 and an aggregator read. -/
theorem registry_entries_persist_witness :
    getRate (applyOps [(0, 3)] [RegOp.publish 1 7, RegOp.readTotal]) 0
      = some 3 := by
  have h := registry_entries_persist.1 [RegOp.publish 1 7, RegOp.readTotal]
    [(0, 3)] 0 3 rfl
    (by intro v hv
        rcases List.mem_cons.mp hv with h1 | h1
        · simp at h1
        · rw [List.mem_singleton] at h1
          exact RegOp.noConfusion h1)
  exact h
